import Mathlib

/-! Config-server property source and route registration of qubership-core-lib-go-rest-utils.

A shallow embedding of

* `configserver-propertysource/configserver_loader.go`
  (`configServerLoader.Read`, `getConfigServerProperties`, `parseBody`,
  `getMicroserviceNameAndURL`), and
* `route-registration/api.go` (`RouteType`, `Route`, `defaultRegistrarConfig`),

followed by theorems about them.

Go values are modelled as follows.

* A `map[string]interface{}` is the list of its entries, in the order in which a
  `range` loop visits them (`Fields`).  A well-formed map has pairwise distinct keys.
  A nil map is `none` where the distinction is kept (`Option Fields`).
* A call that returns `(x, err)` returns an `Except GoError _`; a panic is a separate
  outcome (`Outcome.panic`).
* Effects on collaborators (the logger, the token provider, the HTTP client) are recorded
  in a trace of `Event`s, oldest first.
* Collaborators that are not part of the two source files are fields of `World`.
-/

namespace ConfigServer

/-! ## Decoded JSON values -/

/-- A value held in an `interface{}` after `json.Unmarshal`: JSON null, a boolean, a number
(a `float64`, kept by its rational value), a string, a sequence, or a nested
`map[string]interface{}` given by its entries. -/
inductive Value where
  | null
  | bool (b : Bool)
  | num (q : Rat)
  | str (s : String)
  | seq (xs : List Value)
  | map (kvs : List (String × Value))

/-- The entries of a `map[string]interface{}`, in the order a `range` loop visits them. -/
abbrev Fields := List (String × Value)

/-- Type switch `case map[string]interface{}`. -/
def Value.isMap : Value → Bool
  | .map _ => true
  | _ => false

/-- A nested map to expand: a map with at least one entry. -/
def Value.isNestedMap : Value → Bool
  | .map cur => !cur.isEmpty
  | _ => false

/-- The keys of a map, in visiting order. -/
def keysOf (m : Fields) : List String := m.map Prod.fst

mutual
/-- Every map inside the value has pairwise distinct keys. -/
def wellFormedValue : Value → Bool
  | .map kvs => decide ((kvs.map Prod.fst).Nodup) && wellFormedEntries kvs
  | .seq xs => wellFormedSeq xs
  | _ => true
/-- Every map inside the values of the entries has pairwise distinct keys. -/
def wellFormedEntries : List (String × Value) → Bool
  | [] => true
  | (_, v) :: rest => wellFormedValue v && wellFormedEntries rest
/-- Every map inside the elements of the sequence has pairwise distinct keys. -/
def wellFormedSeq : List Value → Bool
  | [] => true
  | v :: rest => wellFormedValue v && wellFormedSeq rest
end

/-- The entry list is a Go map: its keys are pairwise distinct, and so are the keys of every
map nested in it. -/
def WellFormed (m : Fields) : Prop := wellFormedValue (.map m) = true

instance (m : Fields) : Decidable (WellFormed m) :=
  inferInstanceAs (Decidable (wellFormedValue (.map m) = true))

/-- Map read `m[k]`: the value stored under `k`, if any. -/
def mapGet : Fields → String → Option Value
  | [], _ => none
  | (k', v) :: rest, k => if k' = k then some v else mapGet rest k

/-- Map assignment `out[k] = v`: replaces the value stored under `k`, or adds the entry. -/
def mapSet : Fields → String → Value → Fields
  | [], k, v => [(k, v)]
  | (k', v') :: rest, k, v => if k' = k then (k', v) :: rest else (k', v') :: mapSet rest k v

/-! ## maps.Flatten -/

mutual
/-- Modelled from the spec: the step of `Flatten` (not under src/) for one entry, whose key
path is `kp`.  Following §4.2 a nested map is expanded, and any other value is stored
untouched under the keys of its path joined by `delim`.  As in the library, a nested map
without entries has nothing to expand and is itself stored as the value. -/
def flattenValue (delim : String) (kp : List String) (out : Fields) : Value → Fields
  | .map cur =>
    if cur.isEmpty then mapSet out (delim.intercalate kp) (.map cur)
    else flattenEntries delim kp out cur
  | v => mapSet out (delim.intercalate kp) v
/-- Modelled from the spec: the traversal of `Flatten` (not under src/) over the entries of a
map, in visiting order; `keys` is the key path of the map itself. -/
def flattenEntries (delim : String) (keys : List String) (out : Fields) : Fields → Fields
  | [] => out
  | (key, val) :: rest =>
    flattenEntries delim keys (flattenValue delim (keys ++ [key]) out val) rest
end

/-- Modelled from the spec: `maps.Flatten` of the koanf library, called by
`configServerLoader.Read`, is not under src/.  Following §4.2 the entries of the nested
mapping are traversed, nested maps are recursively expanded, and every non-map leaf value is
stored untouched under the keys of its path joined by `delim`.  The entries are visited in
list order and stored by map assignment into an initially empty map.  The spec does not
mention a nested map without entries: as in the library, it is stored as a value under its
joined key path, like any other leaf.  Only the first result of `maps.Flatten` (the flat map)
is modelled; `Read` discards the second. -/
def Flatten (m : Fields) (keys : List String) (delim : String) : Fields :=
  flattenEntries delim keys [] m

/-! ## Leaves of a nested mapping -/

/-- `LeafAt m p v`: following the keys of the path `p` from the root of the nested mapping `m`
leads, through nested maps only, to the leaf `v`: a value that is not a map, or a nested map
without entries. -/
inductive LeafAt : Fields → List String → Value → Prop
  | leaf {m : Fields} {k : String} {v : Value} :
      (k, v) ∈ m → v.isNestedMap = false → LeafAt m [k] v
  | nested {m : Fields} {k : String} {sub : Fields} {p : List String} {v : Value} :
      (k, Value.map sub) ∈ m → LeafAt sub p v → LeafAt m (k :: p) v

mutual
/-- The leaves below a value whose key path is `kp`, each with its full key path, in
visiting order. -/
def leavesValue (kp : List String) : Value → List (List String × Value)
  | .map cur => if cur.isEmpty then [(kp, .map cur)] else leavesEntries kp cur
  | v => [(kp, v)]
/-- The leaves of a map whose key path is `keys`, each with its full key path, in visiting
order. -/
def leavesEntries (keys : List String) : Fields → List (List String × Value)
  | [] => []
  | (key, val) :: rest => leavesValue (keys ++ [key]) val ++ leavesEntries keys rest
end

/-- Storing a list of leaves, oldest first, into `out` under their joined key paths. -/
def writeAll (delim : String) (out : Fields) (ws : List (List String × Value)) : Fields :=
  ws.foldl (fun o e => mapSet o (delim.intercalate e.1) e.2) out

/-- The joined key of every leaf of `m`, in visiting order. -/
def leafKeys (delim : String) (m : Fields) : List String :=
  (leavesEntries [] m).map (fun e => delim.intercalate e.1)

/-- No two leaves of `m` have the same joined key. -/
def NoCollision (delim : String) (m : Fields) : Prop := (leafKeys delim m).Nodup

instance (delim : String) (m : Fields) : Decidable (NoCollision delim m) :=
  inferInstanceAs (Decidable (leafKeys delim m).Nodup)

/-- A flat mapping: no value is a nested map to expand. -/
def IsFlat (m : Fields) : Prop := ∀ e ∈ m, e.2.isNestedMap = false

instance (m : Fields) : Decidable (IsFlat m) :=
  inferInstanceAs (Decidable (∀ e ∈ m, e.2.isNestedMap = false))

/-- `Reorder m m'`: the entry lists `m` and `m'` hold the same nested mapping, with the
entries of the mapping or of any of its nested mappings listed in a different order. -/
inductive Reorder : Fields → Fields → Prop
  | refl (m : Fields) : Reorder m m
  | swap (a b : String × Value) (m : Fields) : Reorder (a :: b :: m) (b :: a :: m)
  | cons (e : String × Value) {m m' : Fields} : Reorder m m' → Reorder (e :: m) (e :: m')
  | nest (k : String) {sub sub' : Fields} (m : Fields) :
      Reorder sub sub' → Reorder ((k, Value.map sub) :: m) ((k, Value.map sub') :: m)
  | trans {a b c : Fields} : Reorder a b → Reorder b c → Reorder a c

/-! ## Errors, panics and effects -/

/-- A Go `error`, identified by its `Error()` text. -/
structure GoError where
  msg : String
deriving DecidableEq

/-- The cause of a panic. -/
inductive Panic where
  | explicit (msg : String)
  | serviceNotLoaded
  | nilDereference
deriving DecidableEq

/-- Result of a call: a value, a returned `error`, or a panic. -/
inductive Outcome (α : Type) where
  | ok (a : α)
  | error (err : GoError)
  | panic (p : Panic)

/-- Levels of the package logger used by the loader. -/
inductive LogLevel where
  | error
  | warn
deriving DecidableEq

/-- An `*http.Request` as far as the loader builds it: method, URL and headers.  `URL` is the
URL that `http.NewRequest` parsed, given by its text. -/
structure Request where
  Method : String
  URL : String
  Header : List (String × String)
deriving DecidableEq

/-- Effects of the loader on its collaborators. -/
inductive Event where
  | log (level : LogLevel) (msg : String)
  | loadTokenProvider
  | getToken
  | newRequest (method : String) (url : String)
  | clientDo (req : Request)
  | closeBody
deriving DecidableEq

/-- Bytes of a response body. -/
abbrev Bytes := List Nat

/-! ## Wire shape -/

/-- Entry of `propertySources`; `Source` is `none` for a nil map. -/
structure configserverPropertySourceEntity where
  Name : String
  Source : Option Fields

/-- The envelope returned by the config server. -/
structure configserverEnv where
  Name : String
  Profiles : List String
  PropertySources : List configserverPropertySourceEntity

/-- Optional overrides given to the property source; an empty field means no override. -/
structure PropertySourceConfiguration where
  MicroserviceName : String
  ConfigServerUrl : String
deriving DecidableEq

/-- Holder of the overrides, `nil` when none were given. -/
structure configServerLoader where
  propertySourceConfiguration : Option PropertySourceConfiguration

/-! ## Collaborators -/

/-- What the loader reads from outside the two source files.

* `tlsEnabled`: the deployment flag consulted by `constants.SelectUrl`;
* `config`: the process-wide configuration consulted by `configloader`;
* `tokenProvider`: `none` when `serviceloader.MustLoad` finds no token provider, otherwise
  what `GetToken` of the loaded provider returns;
* `parseURL`: the URL parser used by `http.NewRequest`: `none` for a URL it rejects,
  otherwise the text of the parsed URL;
* `clientDo`: what `client.Do` returns for a request, the response being given by what
  `io.ReadAll` of its body returns;
* `unmarshal`: `json.Unmarshal` into a zero `configserverEnv`. -/
structure World where
  tlsEnabled : Bool
  config : String → Option String
  tokenProvider : Option (Except GoError String)
  parseURL : String → Option String
  clientDo : Request → Except GoError (Except GoError Bytes)
  unmarshal : Bytes → Except GoError configserverEnv

/-- Modelled from the spec: `constants.SelectUrl` belongs to another module.  Following §4.1
the default URL is scheme-selected (HTTP or HTTPS) by a deployment-mode flag. -/
def SelectUrl (tlsEnabled : Bool) (httpUrl httpsUrl : String) : String :=
  if tlsEnabled then httpsUrl else httpUrl

/-- Modelled from the spec: `configloader.GetOrDefaultString` belongs to another module.
Following §6 it is the accessor `GetOrDefaultString(key, default) -> string` of the
process-wide configuration: the value of `key` when the key is set, `default` otherwise. -/
def GetOrDefaultString (config : String → Option String) (key def_ : String) : String :=
  (config key).getD def_

/-- Go `http.NewRequest`, of the standard library, given by its URL parser (`parseURL`, a
parameter).  For a URL the parser accepts it returns a request with the given method, the
parsed URL and no header; otherwise it returns a nil request (and an error, which the loader
discards). -/
def NewRequest (parseURL : String → Option String) (method url : String) : Option Request :=
  match parseURL url with
  | some parsed => some { Method := method, URL := parsed, Header := [] }
  | none => none

/-! ## configserver_loader.go -/

/-- The text passed to `panic` by `getMicroserviceNameAndURL`. -/
def missingNameMessage : String :=
  "You did not specify the mandatory 'microservice.name' property. " ++
  "You should use configloader with BasePropertySources and " ++
  "specify the parameter in application.yaml(pass through env variable) or use configserver.PropertySourceConfiguration."

/-- Embedding of `getMicroserviceNameAndURL`: the pair `(microserviceName, configserverURL)`, or
the panic. -/
def getMicroserviceNameAndURL (w : World) (params : Option PropertySourceConfiguration) :
    Except Panic (String × String) :=
  let defaultUrl := SelectUrl w.tlsEnabled "http://config-server:8080" "https://config-server:8443"
  let configserverURL := GetOrDefaultString w.config "config-server.url" defaultUrl
  let microserviceName := GetOrDefaultString w.config "microservice.name" ""
  let microserviceName :=
    match params with
    | some p => if p.MicroserviceName ≠ "" then p.MicroserviceName else microserviceName
    | none => microserviceName
  let configserverURL :=
    match params with
    | some p => if p.ConfigServerUrl ≠ "" then p.ConfigServerUrl else configserverURL
    | none => configserverURL
  if microserviceName = "" then .error (.explicit missingNameMessage)
  else .ok (microserviceName, configserverURL)

/-- Embedding of `parseBody`; `body` is what `io.ReadAll(body)` returns.  The package logger is
taken to be initialised. -/
def parseBody (w : World) (body : Except GoError Bytes) :
    List Event × Except GoError (Option Fields) :=
  match body with
  | .error err => ([.log .error ("Failed to read response body: " ++ err.msg)], .error err)
  | .ok restBody =>
    match w.unmarshal restBody with
    | .error err => ([.log .error ("Failed to unmarshal response body: " ++ err.msg)], .error err)
    | .ok env =>
      match env.PropertySources with
      | [] => ([.log .warn ("PropertySources is empty for '" ++ env.Name ++ "'")], .ok (some []))
      | first :: _ => ([], .ok first.Source)

/-- Lines 53-56 of `getConfigServerProperties`: the request handed to `client.Do`.  `none`
stands for the nil request left by a failed `http.NewRequest`; adding a header to it is a
nil dereference. -/
def buildRequest (w : World) (configServerUrl microserviceName token : String) :
    Except Panic (Option Request) :=
  match NewRequest w.parseURL "GET" (configServerUrl ++ "/" ++ microserviceName ++ "/default") with
  | some req =>
    if token ≠ "" then
      .ok (some { req with Header := req.Header ++ [("Authorization", "Bearer " ++ token)] })
    else .ok (some req)
  | none => if token ≠ "" then .error .nilDereference else .ok none

/-- Embedding of `getConfigServerProperties`: the trace of effects and the outcome.
`client.Do` on a nil request is a nil dereference inside the client. -/
def getConfigServerProperties (w : World) (params : Option PropertySourceConfiguration) :
    List Event × Outcome (Option Fields) :=
  match getMicroserviceNameAndURL w params with
  | .error p => ([], .panic p)
  | .ok (microserviceName, configServerUrl) =>
    match w.tokenProvider with
    | none => ([.loadTokenProvider], .panic .serviceNotLoaded)
    | some (.error err) =>
      ([.loadTokenProvider, .getToken],
        .error ⟨"could not get token to load properties from config-server, err: " ++ err.msg⟩)
    | some (.ok token) =>
      let url := configServerUrl ++ "/" ++ microserviceName ++ "/default"
      let pre : List Event := [.loadTokenProvider, .getToken, .newRequest "GET" url]
      match buildRequest w configServerUrl microserviceName token with
      | .error p => (pre, .panic p)
      | .ok none => (pre, .panic .nilDereference)
      | .ok (some req) =>
        match w.clientDo req with
        | .error err =>
          (pre ++ [.clientDo req, .log .error ("Failed send request to config-server: " ++ err.msg)],
            .error err)
        | .ok body =>
          match parseBody w body with
          | (logs, .error err) => (pre ++ [.clientDo req] ++ logs ++ [.closeBody], .error err)
          | (logs, .ok source) => (pre ++ [.clientDo req] ++ logs ++ [.closeBody], .ok source)

/-- Embedding of `configServerLoader.ReadBytes`. -/
def configServerLoader.ReadBytes (_this : configServerLoader) : Except GoError Bytes :=
  .error ⟨"configserver provider does not support this method"⟩

/-- Embedding of `configServerLoader.Read`.  Ranging over a nil map visits nothing. -/
def configServerLoader.Read (w : World) (this : configServerLoader) :
    List Event × Outcome Fields :=
  match getConfigServerProperties w this.propertySourceConfiguration with
  | (tr, .ok source) => (tr, .ok (Flatten (source.getD []) [] "."))
  | (tr, .error err) => (tr, .error err)
  | (tr, .panic p) => (tr, .panic p)

/-- The source of the scenario of §8: `a: (b: 1)`. -/
def scenarioSource : Fields := [("a", .map [("b", .num 1)])]

/-- A source with the two entries `a.b: 1` and `a: (b: 2)`, whose keys are distinct. -/
def collidingSource : Fields := [("a.b", .num 1), ("a", .map [("b", .num 2)])]

/-- The mapping `x: (y: true), x.y: false`, with its two entries in one order. -/
def dottedFirst : Fields := [("x.y", .bool false), ("x", .map [("y", .bool true)])]

/-- The mapping `x: (y: true), x.y: false`, with its two entries in the other order. -/
def dottedLast : Fields := [("x", .map [("y", .bool true)]), ("x.y", .bool false)]

/-- A nested mapping without colliding paths, `a: (b: 1, c: [true]), d: "x"`. -/
def nestedSource : Fields :=
  [("a", .map [("b", .num 1), ("c", .seq [.bool true])]), ("d", .str "x")]

/-- The mapping `nestedSource` with the entries of both levels in the other order. -/
def nestedSourceReordered : Fields :=
  [("d", .str "x"), ("a", .map [("c", .seq [.bool true]), ("b", .num 1)])]

/-- Requests handed to `client.Do`, oldest first. -/
def requestsSent : List Event → List Request
  | [] => []
  | .clientDo req :: rest => req :: requestsSent rest
  | _ :: rest => requestsSent rest

/-- A world in which the service is named `svc`, no override URL is configured, the token
provider returns `token`, every URL is accepted and parsed to itself, and the config server
answers with an envelope that decodes to `env`. -/
def worldAnswering (token : String) (env : configserverEnv) : World where
  tlsEnabled := false
  config := fun key => if key = "microservice.name" then some "svc" else none
  tokenProvider := some (.ok token)
  parseURL := fun url => some url
  clientDo := fun _ => .ok (.ok [])
  unmarshal := fun _ => .ok env

/-- The envelope `name: svc, profiles: [default], propertySources: [(svc-default, source)]`
of the scenario of §8. -/
def envelopeOf (source : Fields) : configserverEnv :=
  { Name := "svc", Profiles := ["default"],
    PropertySources := [{ Name := "svc-default", Source := some source }] }

/-- A world in which the token provider returns the empty token and the config server answers
with `envelopeOf source`. -/
def worldServing (source : Fields) : World := worldAnswering "" (envelopeOf source)

/-- An envelope with another name, other profiles and a second property source, whose first
property source has the same source as `envelopeOf scenarioSource`. -/
def envelopeWithOverlays : configserverEnv :=
  { Name := "other", Profiles := ["default", "dev"],
    PropertySources := [{ Name := "other-dev", Source := some scenarioSource },
                        { Name := "other-default", Source := some collidingSource }] }

/-- An envelope without property sources. -/
def envelopeWithoutSources : configserverEnv :=
  { Name := "svc", Profiles := ["default"], PropertySources := [] }

/-- A world without any process-wide configuration. -/
def worldUnconfigured : World where
  tlsEnabled := false
  config := fun _ => none
  tokenProvider := some (.ok "")
  parseURL := fun url => some url
  clientDo := fun _ => .ok (.ok [])
  unmarshal := fun _ => .ok envelopeWithoutSources

/-- A source with an empty nested map and no colliding paths, `a: (b: ()), c: 1`. -/
def emptyMapSource : Fields := [("a", .map [("b", .map [])]), ("c", .num 1)]

/-- A URL parser that rejects a URL holding an ASCII control character, as the parser of
`http.NewRequest` does, and parses any other URL to itself. -/
def parseRejectingControl (url : String) : Option String :=
  if url.data.any (fun c => decide (c.toNat < 32) || decide (c.toNat = 127)) then none
  else some url

/-- A world in which `microservice.name` ends with a line feed, no override URL is
configured, the token provider returns the empty token, and URLs are parsed by
`parseRejectingControl`. -/
def worldWithLineFeed : World where
  tlsEnabled := false
  config := fun key => if key = "microservice.name" then some "svc\n" else none
  tokenProvider := some (.ok "")
  parseURL := parseRejectingControl
  clientDo := fun _ => .ok (.ok [])
  unmarshal := fun _ => .ok envelopeWithoutSources

/-- The precedence rule of §4.1, explicit override > process-wide key > built-in default:
the override when one is given and is not empty, otherwise the configured value when the key
is set, otherwise the built-in default. -/
def byPrecedence (override configured : Option String) (builtin : String) : String :=
  match override with
  | some o => if o = "" then configured.getD builtin else o
  | none => configured.getD builtin

end ConfigServer

namespace RouteRegistration

/-! ## api.go -/

def PublicGatewayService : String := "public-gateway-service"
def PrivateGatewayService : String := "private-gateway-service"
def InternalGatewayService : String := "internal-gateway-service"

def AnyHost : String := "*"

/-- Go `type RouteType string`. -/
abbrev RouteType := String

def Public : RouteType := "public"
def Private : RouteType := "private"
def Internal : RouteType := "internal"
def Mesh : RouteType := "mesh"

/-- Go `type Route struct`; `Timeout` is a `time.Duration` in nanoseconds. -/
structure Route where
  From : String
  To : String
  Forbidden : Bool
  Timeout : Int
  RouteType : RouteRegistration.RouteType
  Gateway : String
  VirtualService : String
  Hosts : List String
deriving DecidableEq

/-- Go `type ServiceMeshType string`; the type is declared outside api.go. -/
abbrev ServiceMeshType := String

/-- The part of `RegistrarConfig` that api.go sets. -/
structure RegistrarConfig where
  ServiceMeshType : RouteRegistration.ServiceMeshType
deriving DecidableEq

/-- Go `strings.ToUpper` on valid UTF-8: every character is mapped by `unicode.ToUpper`,
which is the parameter `upper`. -/
def ToUpper (upper : Char → Char) (s : String) : String := String.mk (s.data.map upper)

/-- Embedding of `defaultRegistrarConfig`.  The constants `CoreServiceMeshType` and
`IstioServiceMeshType` are declared outside api.go and are parameters, as are the case table
`upper` and the process environment `lookupEnv` (`os.LookupEnv`). -/
def defaultRegistrarConfig (upper : Char → Char)
    (CoreServiceMeshType IstioServiceMeshType : ServiceMeshType)
    (lookupEnv : String → Option String) : RegistrarConfig :=
  let serviceMeshType :=
    match lookupEnv "SERVICE_MESH_TYPE" with
    | some env =>
      if ToUpper upper env = IstioServiceMeshType then IstioServiceMeshType
      else CoreServiceMeshType
    | none => CoreServiceMeshType
  { ServiceMeshType := serviceMeshType }

/-- Modelled from the spec: the gateway resolver is not under src/; api.go holds only the
gateway names, the `RouteType` constants and the comment that describes them.  Following
the mapping table of §4.3, `resolve(route, meshType)` is the set of target gateways of the
route, listed without repetition; a route type outside the four constants has no mapping. -/
def resolve (route : Route) (_meshType : ServiceMeshType) : Option (List String) :=
  if route.RouteType = Public then
    some [PublicGatewayService, PrivateGatewayService, InternalGatewayService]
  else if route.RouteType = Private then
    some [PrivateGatewayService, InternalGatewayService]
  else if route.RouteType = Internal then
    some [InternalGatewayService]
  else if route.RouteType = Mesh then
    some [route.Gateway]
  else none

/-- ASCII upper-casing of one character, an instance of the case table on ASCII letters. -/
def asciiUpper (c : Char) : Char :=
  if 97 ≤ c.toNat ∧ c.toNat ≤ 122 then Char.ofNat (c.toNat - 32) else c

end RouteRegistration

namespace ConfigServer

/-! ## Map reads and assignments -/

theorem mapGet_mapSet (m : Fields) (k k' : String) (v : Value) :
    mapGet (mapSet m k v) k' = if k = k' then some v else mapGet m k' := by
  induction m with
  | nil => simp [mapSet, mapGet]
  | cons e rest ih =>
    obtain ⟨k0, v0⟩ := e
    by_cases h : k0 = k
    · subst h
      by_cases h' : k0 = k' <;> simp [mapSet, mapGet, h']
    · by_cases h' : k = k'
      · subst h'
        simp [mapSet, mapGet, h, ih]
      · by_cases h'' : k0 = k'
        · subst h''
          simp [mapSet, mapGet, h, h']
        · simp [mapSet, mapGet, h, h', h'', ih]

theorem keysOf_mapSet_of_mem (m : Fields) (k : String) (v : Value) (h : k ∈ keysOf m) :
    keysOf (mapSet m k v) = keysOf m := by
  induction m with
  | nil => simp [keysOf] at h
  | cons e rest ih =>
    obtain ⟨k0, v0⟩ := e
    by_cases h0 : k0 = k
    · simp [mapSet, keysOf, h0]
    · have hr : k ∈ keysOf rest := by
        simp only [keysOf, List.map_cons, List.mem_cons] at h
        rcases h with h | h
        · exact absurd h.symm h0
        · exact h
      have := ih hr
      simp only [keysOf] at this
      simp [mapSet, keysOf, h0, this]

theorem mapSet_of_not_mem (m : Fields) (k : String) (v : Value) (h : k ∉ keysOf m) :
    mapSet m k v = m ++ [(k, v)] := by
  induction m with
  | nil => simp [mapSet]
  | cons e rest ih =>
    obtain ⟨k0, v0⟩ := e
    simp only [keysOf, List.map_cons, List.mem_cons, not_or] at h
    have h0 : ¬ k0 = k := fun hh => h.1 hh.symm
    have := ih (by simpa [keysOf] using h.2)
    simp [mapSet, h0, this]

theorem nodup_keysOf_mapSet (m : Fields) (k : String) (v : Value) (h : (keysOf m).Nodup) :
    (keysOf (mapSet m k v)).Nodup := by
  by_cases hk : k ∈ keysOf m
  · rw [keysOf_mapSet_of_mem m k v hk]; exact h
  · rw [mapSet_of_not_mem m k v hk]
    simp only [keysOf, List.map_append, List.map_cons, List.map_nil]
    rw [List.nodup_append]
    refine ⟨h, List.nodup_singleton _, ?_⟩
    intro a ha hb
    simp only [List.mem_singleton] at hb
    subst hb
    exact hk ha

theorem mapGet_eq_some_iff_mem (m : Fields) (h : (keysOf m).Nodup) (k : String) (v : Value) :
    mapGet m k = some v ↔ (k, v) ∈ m := by
  induction m with
  | nil => simp [mapGet]
  | cons e rest ih =>
    obtain ⟨k0, v0⟩ := e
    simp only [keysOf, List.map_cons, List.nodup_cons] at h
    have ih' := ih (by simpa [keysOf] using h.2)
    by_cases h0 : k0 = k
    · subst h0
      simp only [mapGet, if_true, Option.some.injEq, List.mem_cons, Prod.mk.injEq, true_and]
      constructor
      · intro hv; exact Or.inl hv.symm
      · rintro (hv | hmem)
        · exact hv.symm
        · exact absurd (List.mem_map_of_mem Prod.fst hmem) h.1
    · simp only [mapGet, h0, if_false, List.mem_cons, Prod.mk.injEq]
      rw [ih']
      constructor
      · intro hm; exact Or.inr hm
      · rintro (⟨hk, _⟩ | hm)
        · exact absurd hk.symm h0
        · exact hm

/-! ## Flatten stores the leaves -/

theorem writeAll_append (delim : String) (out : Fields) (ws ws' : List (List String × Value)) :
    writeAll delim out (ws ++ ws') = writeAll delim (writeAll delim out ws) ws' := by
  simp [writeAll, List.foldl_append]

mutual
theorem flattenValue_eq_writeAll (delim : String) (kp : List String) (out : Fields) :
    ∀ v : Value, flattenValue delim kp out v = writeAll delim out (leavesValue kp v)
  | .map cur => by
    simp only [flattenValue, leavesValue]
    by_cases hcur : cur.isEmpty = true
    · simp [hcur, writeAll]
    · simp only [hcur]
      exact flattenEntries_eq_writeAll delim kp out cur
  | .null => by simp [flattenValue, leavesValue, writeAll]
  | .bool _ => by simp [flattenValue, leavesValue, writeAll]
  | .num _ => by simp [flattenValue, leavesValue, writeAll]
  | .str _ => by simp [flattenValue, leavesValue, writeAll]
  | .seq _ => by simp [flattenValue, leavesValue, writeAll]
theorem flattenEntries_eq_writeAll (delim : String) (keys : List String) (out : Fields) :
    ∀ m : Fields, flattenEntries delim keys out m = writeAll delim out (leavesEntries keys m)
  | [] => by simp [flattenEntries, leavesEntries, writeAll]
  | (key, val) :: rest => by
    simp only [flattenEntries, leavesEntries]
    rw [writeAll_append, flattenValue_eq_writeAll delim (keys ++ [key]) out val]
    exact flattenEntries_eq_writeAll delim keys _ rest
end

/-! ## The leaves are the root-to-leaf paths -/

theorem LeafAt.mono {m m' : Fields} {p : List String} {v : Value}
    (hsub : ∀ e ∈ m, e ∈ m') (h : LeafAt m p v) : LeafAt m' p v := by
  cases h with
  | leaf hmem hv => exact LeafAt.leaf (hsub _ hmem) hv
  | nested hmem hsubleaf => exact LeafAt.nested (hsub _ hmem) hsubleaf

theorem LeafAt.not_isNestedMap {m : Fields} {p : List String} {v : Value}
    (h : LeafAt m p v) : v.isNestedMap = false := by
  induction h with
  | leaf _ hv => exact hv
  | nested _ _ ih => exact ih

theorem LeafAt.isEmpty_eq_false {m : Fields} {p : List String} {v : Value}
    (h : LeafAt m p v) : m.isEmpty = false := by
  cases h with
  | leaf hmem _ => cases m with
    | nil => simp at hmem
    | cons _ _ => rfl
  | nested hmem _ => cases m with
    | nil => simp at hmem
    | cons _ _ => rfl

theorem leavesValue_of_not_isNestedMap (kp : List String) (v : Value)
    (h : v.isNestedMap = false) : leavesValue kp v = [(kp, v)] := by
  cases v with
  | map cur =>
    have hcur : cur.isEmpty = true := by simpa [Value.isNestedMap] using h
    simp [leavesValue, hcur]
  | null => simp [leavesValue]
  | bool _ => simp [leavesValue]
  | num _ => simp [leavesValue]
  | str _ => simp [leavesValue]
  | seq _ => simp [leavesValue]

theorem leavesValue_subset_leavesEntries (keys : List String) (k : String) (val : Value)
    (m : Fields) (hmem : (k, val) ∈ m) :
    ∀ e ∈ leavesValue (keys ++ [k]) val, e ∈ leavesEntries keys m := by
  induction m with
  | nil => simp at hmem
  | cons e0 rest ih =>
    obtain ⟨k0, v0⟩ := e0
    intro e he
    simp only [leavesEntries, List.mem_append]
    rcases List.mem_cons.mp hmem with h | h
    · simp only [Prod.mk.injEq] at h
      obtain ⟨hk, hv⟩ := h
      subst hk; subst hv
      exact Or.inl he
    · exact Or.inr (ih h e he)

theorem mem_leavesEntries_of_leafAt {m : Fields} {p : List String} {v : Value}
    (h : LeafAt m p v) : ∀ keys : List String, (keys ++ p, v) ∈ leavesEntries keys m := by
  induction h with
  | @leaf m k v hmem hv =>
    intro keys
    apply leavesValue_subset_leavesEntries keys k v m hmem
    rw [leavesValue_of_not_isNestedMap _ _ hv]
    simp
  | @nested m k sub p v hmem hsub ih =>
    intro keys
    apply leavesValue_subset_leavesEntries keys k (Value.map sub) m hmem
    simp only [leavesValue, hsub.isEmpty_eq_false]
    have := ih (keys ++ [k])
    simpa using this

mutual
theorem leafAt_of_mem_leavesValue (kp : List String) :
    ∀ (val : Value) (p : List String) (v : Value), (p, v) ∈ leavesValue kp val →
      (val.isNestedMap = false ∧ p = kp ∧ v = val) ∨
      ∃ sub q, val = Value.map sub ∧ LeafAt sub q v ∧ p = kp ++ q
  | .map cur, p, v, h => by
    simp only [leavesValue] at h
    by_cases hcur : cur.isEmpty = true
    · simp only [hcur, if_true, List.mem_singleton, Prod.mk.injEq] at h
      exact Or.inl ⟨by simp [Value.isNestedMap, hcur], h.1, h.2⟩
    · simp only [hcur] at h
      obtain ⟨q, hq, hp⟩ := leafAt_of_mem_leavesEntries kp cur p v h
      exact Or.inr ⟨cur, q, rfl, hq, hp⟩
  | .null, p, v, h => by simp [leavesValue] at h; simp [Value.isNestedMap, h]
  | .bool _, p, v, h => by simp [leavesValue] at h; simp [Value.isNestedMap, h]
  | .num _, p, v, h => by simp [leavesValue] at h; simp [Value.isNestedMap, h]
  | .str _, p, v, h => by simp [leavesValue] at h; simp [Value.isNestedMap, h]
  | .seq _, p, v, h => by simp [leavesValue] at h; simp [Value.isNestedMap, h]
theorem leafAt_of_mem_leavesEntries (keys : List String) :
    ∀ (m : Fields) (p : List String) (v : Value), (p, v) ∈ leavesEntries keys m →
      ∃ q, LeafAt m q v ∧ p = keys ++ q
  | [], p, v, h => by simp [leavesEntries] at h
  | (key, val) :: rest, p, v, h => by
    simp only [leavesEntries, List.mem_append] at h
    rcases h with h | h
    · rcases leafAt_of_mem_leavesValue (keys ++ [key]) val p v h with ⟨hv, hp, hval⟩ | ⟨sub, q, hval, hq, hp⟩
      · subst hval
        exact ⟨[key], LeafAt.leaf (List.mem_cons_self _ _) hv, hp⟩
      · subst hval
        refine ⟨key :: q, LeafAt.nested (List.mem_cons_self _ _) hq, ?_⟩
        simp [hp]
    · obtain ⟨q, hq, hp⟩ := leafAt_of_mem_leavesEntries keys rest p v h
      exact ⟨q, LeafAt.mono (fun e he => List.mem_cons_of_mem _ he) hq, hp⟩
end

/-! ## Reading a map into which leaves were stored -/

theorem mapGet_writeAll_some (delim : String) (ws : List (List String × Value)) :
    ∀ (out : Fields) (k : String) (v : Value), mapGet (writeAll delim out ws) k = some v →
      (∃ e ∈ ws, delim.intercalate e.1 = k ∧ e.2 = v) ∨ mapGet out k = some v := by
  induction ws with
  | nil => intro out k v h; exact Or.inr (by simpa [writeAll] using h)
  | cons e0 rest ih =>
    intro out k v h
    have h' : mapGet (writeAll delim (mapSet out (delim.intercalate e0.1) e0.2) rest) k = some v := by
      simpa [writeAll] using h
    rcases ih _ k v h' with ⟨e, he, hk, hv⟩ | hset
    · exact Or.inl ⟨e, List.mem_cons_of_mem _ he, hk, hv⟩
    · rw [mapGet_mapSet] at hset
      by_cases hk : delim.intercalate e0.1 = k
      · rw [if_pos hk] at hset
        exact Or.inl ⟨e0, List.mem_cons_self _ _, hk, Option.some.inj hset⟩
      · rw [if_neg hk] at hset
        exact Or.inr hset

theorem mapGet_writeAll_keep (delim : String) (k : String) (v : Value)
    (ws : List (List String × Value)) :
    ∀ out : Fields, (∀ e ∈ ws, delim.intercalate e.1 = k → e.2 = v) → mapGet out k = some v →
      mapGet (writeAll delim out ws) k = some v := by
  induction ws with
  | nil => intro out _ h; simpa [writeAll] using h
  | cons e0 rest ih =>
    intro out hall h
    have hstep : mapGet (mapSet out (delim.intercalate e0.1) e0.2) k = some v := by
      rw [mapGet_mapSet]
      by_cases hk : delim.intercalate e0.1 = k
      · rw [if_pos hk, hall e0 (List.mem_cons_self _ _) hk]
      · rw [if_neg hk]; exact h
    have := ih _ (fun e he => hall e (List.mem_cons_of_mem _ he)) hstep
    simpa [writeAll] using this

theorem mapGet_writeAll_of_mem (delim : String) (ws : List (List String × Value)) :
    ∀ (out : Fields) (e : List String × Value), e ∈ ws →
      (∀ e' ∈ ws, delim.intercalate e'.1 = delim.intercalate e.1 → e'.2 = e.2) →
      mapGet (writeAll delim out ws) (delim.intercalate e.1) = some e.2 := by
  induction ws with
  | nil => intro out e he; simp at he
  | cons e0 rest ih =>
    intro out e he hall
    rcases List.mem_cons.mp he with h | h
    · subst h
      have hstep : mapGet (mapSet out (delim.intercalate e.1) e.2) (delim.intercalate e.1)
          = some e.2 := by
        rw [mapGet_mapSet, if_pos rfl]
      have := mapGet_writeAll_keep delim (delim.intercalate e.1) e.2 rest _
        (fun e' he' => hall e' (List.mem_cons_of_mem _ he')) hstep
      simpa [writeAll] using this
    · have := ih (mapSet out (delim.intercalate e0.1) e0.2) e h
        (fun e' he' => hall e' (List.mem_cons_of_mem _ he'))
      simpa [writeAll] using this

theorem nodup_keysOf_writeAll (delim : String) (ws : List (List String × Value)) :
    ∀ out : Fields, (keysOf out).Nodup → (keysOf (writeAll delim out ws)).Nodup := by
  induction ws with
  | nil => intro out h; simpa [writeAll] using h
  | cons e0 rest ih =>
    intro out h
    have := ih _ (nodup_keysOf_mapSet out (delim.intercalate e0.1) e0.2 h)
    simpa [writeAll] using this

/-- A read of the flattened map finds `v` under `k` exactly when `v` is a leaf of the input
whose path joins to `k`, provided the joined keys of the leaves are pairwise distinct. -/
theorem mapGet_Flatten_iff (delim : String) (m : Fields) (h : NoCollision delim m)
    (k : String) (v : Value) :
    mapGet (Flatten m [] delim) k = some v ↔ ∃ p, LeafAt m p v ∧ delim.intercalate p = k := by
  unfold Flatten
  rw [flattenEntries_eq_writeAll]
  constructor
  · intro hget
    rcases mapGet_writeAll_some delim _ [] k v hget with ⟨e, he, hk, hv⟩ | hnil
    · obtain ⟨q, hq, hp⟩ := leafAt_of_mem_leavesEntries [] m e.1 e.2 he
      refine ⟨q, ?_, ?_⟩
      · rw [← hv]; exact hq
      · rw [← hk, hp]; simp
    · simp [mapGet] at hnil
  · rintro ⟨p, hp, hk⟩
    have hmem := mem_leavesEntries_of_leafAt hp []
    simp only [List.nil_append] at hmem
    have := mapGet_writeAll_of_mem delim (leavesEntries [] m) [] (p, v) hmem (by
      intro e' he' hkey
      have heq : e' = (p, v) :=
        List.inj_on_of_nodup_map h he' hmem hkey
      rw [heq])
    rw [← hk]
    exact this

theorem mapGet_writeAll_iff (delim : String) (ws : List (List String × Value))
    (h : (ws.map (fun e => delim.intercalate e.1)).Nodup) (k : String) (v : Value) :
    mapGet (writeAll delim [] ws) k = some v ↔ ∃ e ∈ ws, delim.intercalate e.1 = k ∧ e.2 = v := by
  constructor
  · intro hget
    rcases mapGet_writeAll_some delim ws [] k v hget with hex | hnil
    · exact hex
    · simp [mapGet] at hnil
  · rintro ⟨e, he, hk, hv⟩
    have := mapGet_writeAll_of_mem delim ws [] e he (by
      intro e' he' hkey
      rw [List.inj_on_of_nodup_map h he' he hkey])
    rw [← hk, ← hv]
    exact this

theorem Reorder.isEmpty_eq {m m' : Fields} (h : Reorder m m') : m.isEmpty = m'.isEmpty := by
  induction h with
  | refl m => rfl
  | swap a b m => rfl
  | cons e _ _ => rfl
  | nest k m _ _ => rfl
  | trans _ _ ih1 ih2 => exact ih1.trans ih2

theorem Reorder.leaves_perm {m m' : Fields} (h : Reorder m m') :
    ∀ keys : List String, (leavesEntries keys m).Perm (leavesEntries keys m') := by
  induction h with
  | refl m => intro keys; exact List.Perm.refl _
  | swap a b m =>
    intro keys
    obtain ⟨ka, va⟩ := a
    obtain ⟨kb, vb⟩ := b
    simp only [leavesEntries]
    exact List.perm_append_comm_assoc _ _ _
  | cons e _ ih =>
    intro keys
    obtain ⟨k, v⟩ := e
    simp only [leavesEntries]
    exact List.Perm.append_left _ (ih keys)
  | @nest k sub sub' m hsub ih =>
    intro keys
    simp only [leavesEntries, leavesValue, ← hsub.isEmpty_eq]
    by_cases hcur : sub.isEmpty = true
    · have h1 : sub = [] := List.isEmpty_iff.mp hcur
      have h2 : sub' = [] := List.isEmpty_iff.mp (by rw [← hsub.isEmpty_eq]; exact hcur)
      subst h1; subst h2
      exact List.Perm.refl _
    · simp only [hcur]
      exact List.Perm.append_right _ (ih (keys ++ [k]))
  | trans _ _ ih1 ih2 => intro keys; exact (ih1 keys).trans (ih2 keys)

theorem mapGet_writeAll_perm (delim : String) (ws ws' : List (List String × Value))
    (hperm : ws.Perm ws') (h : (ws.map (fun e => delim.intercalate e.1)).Nodup) (k : String) :
    mapGet (writeAll delim [] ws) k = mapGet (writeAll delim [] ws') k := by
  have h' : (ws'.map (fun e => delim.intercalate e.1)).Nodup :=
    (List.Perm.nodup_iff (hperm.map _)).mp h
  apply Option.ext
  intro v
  simp only [Option.mem_def]
  rw [mapGet_writeAll_iff delim ws h, mapGet_writeAll_iff delim ws' h']
  constructor
  · rintro ⟨e, he, hk⟩; exact ⟨e, hperm.mem_iff.mp he, hk⟩
  · rintro ⟨e, he, hk⟩; exact ⟨e, hperm.mem_iff.mpr he, hk⟩

/-! ## Flat mappings -/

theorem mem_mapSet {m : Fields} {k : String} {v : Value} {e : String × Value}
    (h : e ∈ mapSet m k v) : e ∈ m ∨ e.2 = v := by
  induction m with
  | nil => simp [mapSet] at h; exact Or.inr (by rw [h])
  | cons e0 rest ih =>
    obtain ⟨k0, v0⟩ := e0
    by_cases h0 : k0 = k
    · simp only [mapSet, h0, if_true, List.mem_cons] at h
      rcases h with h | h
      · exact Or.inr (by rw [h])
      · exact Or.inl (List.mem_cons_of_mem _ h)
    · simp only [mapSet, h0, if_false, List.mem_cons] at h
      rcases h with h | h
      · exact Or.inl (by rw [h]; exact List.mem_cons_self _ _)
      · rcases ih h with h' | h'
        · exact Or.inl (List.mem_cons_of_mem _ h')
        · exact Or.inr h'

theorem isFlat_writeAll (delim : String) (ws : List (List String × Value)) :
    ∀ out : Fields, IsFlat out → (∀ e ∈ ws, e.2.isNestedMap = false) →
      IsFlat (writeAll delim out ws) := by
  induction ws with
  | nil => intro out h _; simpa [writeAll] using h
  | cons e0 rest ih =>
    intro out h hall
    have hstep : IsFlat (mapSet out (delim.intercalate e0.1) e0.2) := by
      intro e he
      rcases mem_mapSet he with h' | h'
      · exact h e h'
      · rw [h']; exact hall e0 (List.mem_cons_self _ _)
    have := ih _ hstep (fun e he => hall e (List.mem_cons_of_mem _ he))
    simpa [writeAll] using this

theorem isFlat_Flatten (m : Fields) (keys : List String) (delim : String) :
    IsFlat (Flatten m keys delim) := by
  unfold Flatten
  rw [flattenEntries_eq_writeAll]
  apply isFlat_writeAll
  · intro e he; simp at he
  · intro e he
    obtain ⟨q, hq, _⟩ := leafAt_of_mem_leavesEntries keys m e.1 e.2 he
    exact hq.not_isNestedMap

theorem nodup_keysOf_Flatten (m : Fields) (keys : List String) (delim : String) :
    (keysOf (Flatten m keys delim)).Nodup := by
  unfold Flatten
  rw [flattenEntries_eq_writeAll]
  exact nodup_keysOf_writeAll delim _ [] (by simp [keysOf])

theorem leavesEntries_of_isFlat (keys : List String) (m : Fields) (h : IsFlat m) :
    leavesEntries keys m = m.map (fun e => (keys ++ [e.1], e.2)) := by
  induction m with
  | nil => simp [leavesEntries]
  | cons e0 rest ih =>
    obtain ⟨k0, v0⟩ := e0
    have h0 : v0.isNestedMap = false := h (k0, v0) (List.mem_cons_self _ _)
    have hr : IsFlat rest := fun e he => h e (List.mem_cons_of_mem _ he)
    simp [leavesEntries, leavesValue_of_not_isNestedMap _ _ h0, ih hr]

theorem intercalate_singleton (delim k : String) : delim.intercalate [k] = k := by
  simp [String.intercalate, String.intercalate.go]

theorem writeAll_fresh (delim : String) (ws : List (List String × Value)) :
    ∀ out : Fields, (keysOf out ++ ws.map (fun e => delim.intercalate e.1)).Nodup →
      writeAll delim out ws = out ++ ws.map (fun e => (delim.intercalate e.1, e.2)) := by
  induction ws with
  | nil => intro out _; simp [writeAll]
  | cons e0 rest ih =>
    intro out h
    have hnot : delim.intercalate e0.1 ∉ keysOf out := by
      intro hmem
      rw [List.nodup_append] at h
      exact h.2.2 hmem
        (List.mem_map_of_mem (fun e : List String × Value => delim.intercalate e.1)
          (List.mem_cons_self e0 rest))
    have hstep := mapSet_of_not_mem out (delim.intercalate e0.1) e0.2 hnot
    have hnd : (keysOf (out ++ [(delim.intercalate e0.1, e0.2)]) ++
        rest.map (fun e => delim.intercalate e.1)).Nodup := by
      simpa [keysOf] using h
    have := ih _ hnd
    simp only [writeAll, List.foldl_cons] at this ⊢
    rw [hstep, this]
    simp

theorem Flatten_of_isFlat (delim : String) (m : Fields) (hflat : IsFlat m)
    (hnd : (keysOf m).Nodup) : Flatten m [] delim = m := by
  unfold Flatten
  rw [flattenEntries_eq_writeAll, leavesEntries_of_isFlat [] m hflat]
  rw [writeAll_fresh]
  · simp only [List.nil_append, List.map_map]
    conv_rhs => rw [← List.map_id m]
    apply List.map_congr_left
    intro e _
    simp [intercalate_singleton]
  · simp only [keysOf, List.map_nil, List.nil_append, List.map_map]
    have : (fun e : List String × Value => delim.intercalate e.1) ∘
        (fun e : String × Value => ([e.1], e.2)) = Prod.fst := by
      funext e
      simp [intercalate_singleton]
    rw [this]
    exact hnd

theorem mapGet_perm (m m' : Fields) (hperm : m'.Perm m) (hnd : (keysOf m).Nodup) (k : String) :
    mapGet m' k = mapGet m k := by
  have hnd' : (keysOf m').Nodup := (List.Perm.nodup_iff (hperm.map _)).mpr hnd
  apply Option.ext
  intro v
  simp only [Option.mem_def]
  rw [mapGet_eq_some_iff_mem m' hnd', mapGet_eq_some_iff_mem m hnd]
  exact hperm.mem_iff

theorem isFlat_perm {m m' : Fields} (hperm : m'.Perm m) (h : IsFlat m) : IsFlat m' :=
  fun e he => h e (hperm.mem_iff.mp he)

/-! ## Claims on `configServerLoader.Read` and the flatten step -/

/-- C1 (amended): for every source mapping `s` that the fetch step returns successfully and in
which no two leaves have the same joined key, `configServerLoader.Read` returns with no error
(and with the trace of the fetch step) a map with pairwise distinct keys that holds `v` under
`k` exactly when `v` is a leaf of `s` whose path, joined with ".", is `k`; a leaf is a value
that is not a map (a number, string, boolean, null or sequence, stored unchanged) or a nested
map without entries (stored as it is). -/
theorem Read_flattens_leaves (w : World) (this : configServerLoader) (tr : List Event)
    (s : Option Fields)
    (hfetch : getConfigServerProperties w this.propertySourceConfiguration = (tr, .ok s))
    (hnc : NoCollision "." (s.getD [])) :
    ∃ flat, configServerLoader.Read w this = (tr, .ok flat) ∧ (keysOf flat).Nodup ∧
      ∀ k v, mapGet flat k = some v ↔ ∃ p, LeafAt (s.getD []) p v ∧ ".".intercalate p = k := by
  refine ⟨Flatten (s.getD []) [] ".", ?_, nodup_keysOf_Flatten _ _ _, ?_⟩
  · simp only [configServerLoader.Read, hfetch]
  · intro k v
    exact mapGet_Flatten_iff "." (s.getD []) hnc k v

/-- C1, scenario of §8: the fetch step returns the source `a: (b: 1)`, which has no colliding
paths, and `Read` returns exactly the map `a.b: 1`. -/
theorem Read_flattens_leaves_witness :
    NoCollision "." scenarioSource ∧
    (configServerLoader.Read (worldServing scenarioSource) ⟨none⟩).2
      = .ok [("a.b", .num 1)] ∧
    ∃ flat, configServerLoader.Read (worldServing scenarioSource) ⟨none⟩
        = ((getConfigServerProperties (worldServing scenarioSource) none).1, .ok flat) ∧
      (keysOf flat).Nodup ∧
      ∀ k v, mapGet flat k = some v ↔
        ∃ p, LeafAt scenarioSource p v ∧ ".".intercalate p = k :=
  ⟨by decide, rfl,
    Read_flattens_leaves (worldServing scenarioSource) ⟨none⟩
      (getConfigServerProperties (worldServing scenarioSource) none).1 (some scenarioSource)
      rfl (by decide)⟩

/-- C1 as stated fails twice.  The fetch step returns the source `a.b: 1, a: (b: 2)`, a map
with distinct keys whose two leaves both have the joined key `a.b`: `Read` returns the map
`a.b: 2`, and no map at all has one entry for each of the two paths.  The fetch step returns
the source `a: (b: ()), c: 1`, which has no colliding paths: `Read` returns under `a.b` the
empty nested map, an entry to which no path to a non-map leaf value corresponds. -/
theorem Read_colliding_paths_counterexample :
    (WellFormed collidingSource ∧
      (getConfigServerProperties (worldServing collidingSource) none).2
        = .ok (some collidingSource) ∧
      (configServerLoader.Read (worldServing collidingSource) ⟨none⟩).2
        = .ok [("a.b", .num 2)] ∧
      ¬ ∃ flat : Fields, ∀ k v, mapGet flat k = some v ↔
          ∃ p, LeafAt collidingSource p v ∧ ".".intercalate p = k) ∧
    (WellFormed emptyMapSource ∧ NoCollision "." emptyMapSource ∧
      (getConfigServerProperties (worldServing emptyMapSource) none).2
        = .ok (some emptyMapSource) ∧
      (configServerLoader.Read (worldServing emptyMapSource) ⟨none⟩).2
        = .ok [("a.b", .map []), ("c", .num 1)] ∧
      mapGet [("a.b", .map []), ("c", .num 1)] "a.b" = some (.map []) ∧
      ¬ ∃ p v, LeafAt emptyMapSource p v ∧ v.isMap = false ∧ ".".intercalate p = "a.b") := by
  refine ⟨⟨by decide, rfl, rfl, ?_⟩, by decide, by decide, rfl, rfl, rfl, ?_⟩
  · rintro ⟨flat, h⟩
    have h1 : mapGet flat "a.b" = some (Value.num 1) :=
      (h "a.b" (Value.num 1)).mpr
        ⟨["a.b"], LeafAt.leaf (by simp [collidingSource]) rfl, by decide⟩
    have h2 : mapGet flat "a.b" = some (Value.num 2) :=
      (h "a.b" (Value.num 2)).mpr
        ⟨["a", "b"],
          LeafAt.nested
            (show ("a", Value.map [("b", .num 2)]) ∈ collidingSource by simp [collidingSource])
            (LeafAt.leaf (show ("b", Value.num 2) ∈ [("b", Value.num 2)] by simp) rfl),
          by decide⟩
    rw [h1] at h2
    simp at h2
  · rintro ⟨p, v, hleaf, hv, hk⟩
    have hmem := mem_leavesEntries_of_leafAt hleaf []
    have hl : leavesEntries [] emptyMapSource
        = [(["a", "b"], Value.map []), (["c"], Value.num 1)] := rfl
    rw [hl] at hmem
    simp only [List.nil_append, List.mem_cons, List.mem_singleton, Prod.mk.injEq,
      List.not_mem_nil, or_false] at hmem
    rcases hmem with ⟨_, hv'⟩ | ⟨hp, _⟩
    · rw [hv'] at hv
      simp [Value.isMap] at hv
    · rw [hp] at hk
      exact absurd hk (by decide)

/-- C7: the flatten step is idempotent.  For every nested mapping `x`, flattening the
flattened map gives the flattened map again, also when its entries are visited in another
order; and flattening a flat map with distinct keys (no value is a nested map to expand)
gives that map. -/
theorem Flatten_idempotent (x : Fields) :
    Flatten (Flatten x [] ".") [] "." = Flatten x [] "." ∧
    (∀ y : Fields, y.Perm (Flatten x [] ".") →
      ∀ k, mapGet (Flatten y [] ".") k = mapGet (Flatten x [] ".") k) ∧
    (∀ m : Fields, IsFlat m → (keysOf m).Nodup → Flatten m [] "." = m) := by
  have hflat := isFlat_Flatten x [] "."
  have hnd := nodup_keysOf_Flatten x [] "."
  refine ⟨Flatten_of_isFlat "." _ hflat hnd, ?_, fun m hm hk => Flatten_of_isFlat "." m hm hk⟩
  intro y hperm k
  have hy : IsFlat y := isFlat_perm hperm hflat
  have hynd : (keysOf y).Nodup := (List.Perm.nodup_iff (hperm.map _)).mpr hnd
  rw [Flatten_of_isFlat "." y hy hynd]
  exact mapGet_perm _ _ hperm hnd k

/-- C7 on the flat map `a.b: 1, d: "x", e: ()`, whose last value is a map without entries:
it is flat with distinct keys, and flattening it gives it back. -/
theorem Flatten_idempotent_witness :
    IsFlat [("a.b", .num 1), ("d", .str "x"), ("e", .map [])] ∧
    (keysOf [("a.b", .num 1), ("d", .str "x"), ("e", .map [])]).Nodup ∧
    Flatten [("a.b", .num 1), ("d", .str "x"), ("e", .map [])] [] "."
      = [("a.b", .num 1), ("d", .str "x"), ("e", .map [])] :=
  have hflat : IsFlat [("a.b", .num 1), ("d", .str "x"), ("e", .map [])] := by decide
  have hnd : (keysOf [("a.b", .num 1), ("d", .str "x"), ("e", .map [])]).Nodup := by decide
  ⟨hflat, hnd, (Flatten_idempotent []).2.2 _ hflat hnd⟩

/-- C8 (amended): for every nested mapping in which no two leaves have the same joined key,
a leaf being a value that is not a map or a nested map without entries, the flat result does
not depend on the order in which the entries of the mapping and of its nested mappings are
visited: every key reads the same value in both results. -/
theorem Flatten_reorder (m m' : Fields) (h : Reorder m m') (hnc : NoCollision "." m) :
    ∀ k, mapGet (Flatten m [] ".") k = mapGet (Flatten m' [] ".") k := by
  intro k
  unfold Flatten
  rw [flattenEntries_eq_writeAll, flattenEntries_eq_writeAll]
  exact mapGet_writeAll_perm "." _ _ (h.leaves_perm []) hnc k

/-- C8 on `a: (b: 1, c: [true]), d: "x"`, reordered at both levels. -/
theorem Flatten_reorder_witness :
    Reorder nestedSource nestedSourceReordered ∧ NoCollision "." nestedSource ∧
    ∀ k, mapGet (Flatten nestedSource [] ".") k
      = mapGet (Flatten nestedSourceReordered [] ".") k :=
  have hre : Reorder nestedSource nestedSourceReordered :=
    Reorder.trans (Reorder.nest "a" [("d", .str "x")] (Reorder.swap _ _ []))
      (Reorder.swap _ _ [])
  ⟨hre, by decide, Flatten_reorder nestedSource nestedSourceReordered hre (by decide)⟩

/-- C8 as stated fails: the mapping `x: (y: true), x.y: false` has two leaves with the joined
key `x.y`; visited in one order the flat result holds `true` under `x.y`, visited in the other
order it holds `false`. -/
theorem Flatten_order_counterexample :
    WellFormed dottedFirst ∧ Reorder dottedFirst dottedLast ∧
    mapGet (Flatten dottedFirst [] ".") "x.y" = some (.bool true) ∧
    mapGet (Flatten dottedLast [] ".") "x.y" = some (.bool false) ∧
    ¬ ∀ k, mapGet (Flatten dottedFirst [] ".") k = mapGet (Flatten dottedLast [] ".") k := by
  have h1 : mapGet (Flatten dottedFirst [] ".") "x.y" = some (.bool true) := rfl
  have h2 : mapGet (Flatten dottedLast [] ".") "x.y" = some (.bool false) := rfl
  refine ⟨by decide, Reorder.swap _ _ [], h1, h2, ?_⟩
  intro h
  have := h "x.y"
  rw [h1, h2] at this
  simp at this

/-! ## Claims on `parseBody` -/

/-- C2: for every successfully decoded envelope whose `propertySources` is not empty,
`parseBody` returns with no error, and without logging, exactly the `Source` of the first
entry, unflattened; any other decoded envelope whose first entry has the same source gives
the same result, whatever its name, profiles and later entries. -/
theorem parseBody_first_source (w : World) (restBody : Bytes) (env : configserverEnv)
    (first : configserverPropertySourceEntity) (rest : List configserverPropertySourceEntity)
    (hdec : w.unmarshal restBody = .ok env) (hps : env.PropertySources = first :: rest) :
    parseBody w (.ok restBody) = ([], .ok first.Source) ∧
    ∀ (w' : World) (restBody' : Bytes) (env' : configserverEnv)
      (first' : configserverPropertySourceEntity)
      (rest' : List configserverPropertySourceEntity),
      w'.unmarshal restBody' = .ok env' → env'.PropertySources = first' :: rest' →
      first'.Source = first.Source →
      parseBody w' (.ok restBody') = parseBody w (.ok restBody) := by
  have key : ∀ (w : World) (restBody : Bytes) (env : configserverEnv)
      (first : configserverPropertySourceEntity)
      (rest : List configserverPropertySourceEntity),
      w.unmarshal restBody = .ok env → env.PropertySources = first :: rest →
      parseBody w (.ok restBody) = ([], .ok first.Source) := by
    intro w restBody env first rest hdec hps
    simp only [parseBody, hdec, hps]
  refine ⟨key w restBody env first rest hdec hps, ?_⟩
  intro w' restBody' env' first' rest' hdec' hps' hsrc
  rw [key w restBody env first rest hdec hps, key w' restBody' env' first' rest' hdec' hps',
    hsrc]

/-- C2 on the envelope of the scenario of §8 and on an envelope with another name, other
profiles and a second property source. -/
theorem parseBody_first_source_witness :
    parseBody (worldServing scenarioSource) (.ok []) = ([], .ok (some scenarioSource)) ∧
    parseBody (worldAnswering "" envelopeWithOverlays) (.ok [])
      = parseBody (worldServing scenarioSource) (.ok []) :=
  have h := parseBody_first_source (worldServing scenarioSource) []
    (envelopeOf scenarioSource) { Name := "svc-default", Source := some scenarioSource } []
    rfl rfl
  ⟨h.1, h.2 (worldAnswering "" envelopeWithOverlays) [] envelopeWithOverlays
    { Name := "other-dev", Source := some scenarioSource }
    [{ Name := "other-default", Source := some collidingSource }] rfl rfl rfl⟩

/-- C3: for every successfully decoded envelope whose `propertySources` is empty or absent,
`parseBody` returns an empty (non-nil) mapping and no error, and logs exactly one warning,
which names the envelope. -/
theorem parseBody_empty_propertySources (w : World) (restBody : Bytes) (env : configserverEnv)
    (hdec : w.unmarshal restBody = .ok env) (hps : env.PropertySources = []) :
    parseBody w (.ok restBody)
      = ([.log .warn ("PropertySources is empty for '" ++ env.Name ++ "'")], .ok (some [])) := by
  simp only [parseBody, hdec, hps]

/-- C3 on the envelope `name: svc, profiles: [default], propertySources: []`. -/
theorem parseBody_empty_propertySources_witness :
    parseBody worldUnconfigured (.ok [])
      = ([.log .warn "PropertySources is empty for 'svc'"], .ok (some [])) :=
  parseBody_empty_propertySources worldUnconfigured [] envelopeWithoutSources rfl rfl

/-! ## Claims on `getMicroserviceNameAndURL` and `getConfigServerProperties` -/

theorem getD_eq_empty_iff (o : Option String) : o.getD "" = "" ↔ (o = none ∨ o = some "") := by
  cases o <;> simp

/-- C4: `getMicroserviceNameAndURL` panics if and only if the override is nil or has an empty
`MicroserviceName` and the key `microservice.name` is unset or empty; the panic carries the
message on the mandatory property, and `getConfigServerProperties` then panics with an empty
trace: the token provider was not loaded or asked for a token and no request was built or
sent. -/
theorem getMicroserviceNameAndURL_panics_iff (w : World)
    (params : Option PropertySourceConfiguration) :
    ((∃ p, getMicroserviceNameAndURL w params = .error p) ↔
      ((params = none ∨ ∃ c, params = some c ∧ c.MicroserviceName = "") ∧
        (w.config "microservice.name" = none ∨ w.config "microservice.name" = some ""))) ∧
    (∀ p, getMicroserviceNameAndURL w params = .error p →
      p = .explicit missingNameMessage ∧
      getConfigServerProperties w params = ([], .panic p)) := by
  constructor
  · rw [← getD_eq_empty_iff]
    cases params with
    | none =>
      by_cases h : (w.config "microservice.name").getD "" = ""
      · simp [getMicroserviceNameAndURL, GetOrDefaultString, h]
      · simp [getMicroserviceNameAndURL, GetOrDefaultString, h]
    | some c =>
      by_cases hc : c.MicroserviceName = ""
      · by_cases h : (w.config "microservice.name").getD "" = ""
        · simp [getMicroserviceNameAndURL, GetOrDefaultString, h, hc]
        · simp [getMicroserviceNameAndURL, GetOrDefaultString, h, hc]
      · simp [getMicroserviceNameAndURL, GetOrDefaultString, hc]
  · intro p hp
    have hp' : p = .explicit missingNameMessage := by
      simp only [getMicroserviceNameAndURL] at hp
      split at hp
      · exact (Except.error.inj hp).symm
      · exact absurd hp (by simp)
    refine ⟨hp', ?_⟩
    simp only [getConfigServerProperties, hp]

/-- C4 without any configuration and without override: the name resolves to the empty string
and `getConfigServerProperties` panics with an empty trace. -/
theorem getMicroserviceNameAndURL_panics_iff_witness :
    getMicroserviceNameAndURL worldUnconfigured none = .error (.explicit missingNameMessage) ∧
    getConfigServerProperties worldUnconfigured none
      = ([], .panic (.explicit missingNameMessage)) :=
  ⟨rfl,
    ((getMicroserviceNameAndURL_panics_iff worldUnconfigured none).2
      (.explicit missingNameMessage) rfl).2⟩

/-- C5: for every override (possibly nil) and every process-wide configuration,
`getMicroserviceNameAndURL` resolves the name by precedence from the override field
`MicroserviceName`, the key `microservice.name` and the default empty string, and the URL by
precedence from the override field `ConfigServerUrl`, the key `config-server.url` and the
scheme-selected default; it returns the two values when the name is not empty.  Each value
depends only on its own override field. -/
theorem getMicroserviceNameAndURL_precedence (w : World)
    (params : Option PropertySourceConfiguration) :
    getMicroserviceNameAndURL w params =
      if byPrecedence (params.map (fun c => c.MicroserviceName))
          (w.config "microservice.name") "" = "" then
        .error (.explicit missingNameMessage)
      else
        .ok (byPrecedence (params.map (fun c => c.MicroserviceName))
              (w.config "microservice.name") "",
            byPrecedence (params.map (fun c => c.ConfigServerUrl))
              (w.config "config-server.url")
              (if w.tlsEnabled then "https://config-server:8443"
               else "http://config-server:8080")) := by
  cases params with
  | none => simp [getMicroserviceNameAndURL, byPrecedence, GetOrDefaultString, SelectUrl]
  | some c =>
    by_cases h1 : c.MicroserviceName = "" <;> by_cases h2 : c.ConfigServerUrl = "" <;>
      simp [getMicroserviceNameAndURL, byPrecedence, GetOrDefaultString, SelectUrl, h1, h2]

/-- C5 in the world of the scenario of §8, where `microservice.name` is `svc` and
`config-server.url` is unset: an override of the URL alone keeps the configured name, an
override of the name alone keeps the default URL, and empty override fields change nothing. -/
theorem getMicroserviceNameAndURL_precedence_witness :
    getMicroserviceNameAndURL (worldServing [])
        (some { MicroserviceName := "", ConfigServerUrl := "http://override:1" })
      = .ok ("svc", "http://override:1") ∧
    getMicroserviceNameAndURL (worldServing [])
        (some { MicroserviceName := "mine", ConfigServerUrl := "" })
      = .ok ("mine", "http://config-server:8080") ∧
    getMicroserviceNameAndURL (worldServing [])
        (some { MicroserviceName := "", ConfigServerUrl := "" })
      = getMicroserviceNameAndURL (worldServing []) none :=
  ⟨(getMicroserviceNameAndURL_precedence (worldServing [])
      (some { MicroserviceName := "", ConfigServerUrl := "http://override:1" })).trans rfl,
    (getMicroserviceNameAndURL_precedence (worldServing [])
      (some { MicroserviceName := "mine", ConfigServerUrl := "" })).trans rfl,
    (getMicroserviceNameAndURL_precedence (worldServing [])
      (some { MicroserviceName := "", ConfigServerUrl := "" })).trans rfl⟩

theorem requestsSent_append (a b : List Event) :
    requestsSent (a ++ b) = requestsSent a ++ requestsSent b := by
  induction a with
  | nil => rfl
  | cons e rest ih => cases e <;> simp [requestsSent, ih]

theorem requestsSent_parseBody (w : World) (body : Except GoError Bytes) :
    requestsSent (parseBody w body).1 = [] := by
  unfold parseBody
  split
  · rfl
  · split
    · rfl
    · split <;> rfl

theorem buildRequest_ok (w : World) (name url token parsed : String)
    (hurl : w.parseURL (url ++ "/" ++ name ++ "/default") = some parsed) :
    buildRequest w url name token =
      .ok (some { Method := "GET", URL := parsed,
                  Header := if token = "" then [] else [("Authorization", "Bearer " ++ token)] }) := by
  by_cases ht : token = "" <;> simp [buildRequest, NewRequest, hurl, ht]

theorem getConfigServerProperties_of_request (w : World)
    (params : Option PropertySourceConfiguration) (name url token : String) (req : Request)
    (hres : getMicroserviceNameAndURL w params = .ok (name, url))
    (htok : w.tokenProvider = some (.ok token))
    (hreq : buildRequest w url name token = .ok (some req)) :
    getConfigServerProperties w params =
      match w.clientDo req with
      | .error err =>
        ([.loadTokenProvider, .getToken, .newRequest "GET" (url ++ "/" ++ name ++ "/default"),
          .clientDo req, .log .error ("Failed send request to config-server: " ++ err.msg)],
          .error err)
      | .ok body =>
        match parseBody w body with
        | (logs, .error err) =>
          ([.loadTokenProvider, .getToken, .newRequest "GET" (url ++ "/" ++ name ++ "/default"),
            .clientDo req] ++ logs ++ [.closeBody], .error err)
        | (logs, .ok source) =>
          ([.loadTokenProvider, .getToken, .newRequest "GET" (url ++ "/" ++ name ++ "/default"),
            .clientDo req] ++ logs ++ [.closeBody], .ok source) := by
  simp only [getConfigServerProperties, hres, htok, hreq]
  rfl

/-- C9 (amended): whenever the name and URL are resolved, the token provider returns a token
without error and `http.NewRequest` accepts the URL made of the resolved URL, the name and
`default` joined by `/`, `getConfigServerProperties` hands exactly one request to
`client.Do`: a GET to that URL as `http.NewRequest` parsed it, whose only header is
`Authorization: Bearer` followed by the token when the token is not empty and which has no
header when the token is empty.  The outcome is then decided by the response alone, so an
empty token is not an error. -/
theorem getConfigServerProperties_request (w : World)
    (params : Option PropertySourceConfiguration) (name url token parsed : String)
    (hres : getMicroserviceNameAndURL w params = .ok (name, url))
    (htok : w.tokenProvider = some (.ok token))
    (hurl : w.parseURL (url ++ "/" ++ name ++ "/default") = some parsed) :
    ∃ req : Request,
      requestsSent (getConfigServerProperties w params).1 = [req] ∧
      req.Method = "GET" ∧
      req.URL = parsed ∧
      req.Header = (if token = "" then [] else [("Authorization", "Bearer " ++ token)]) ∧
      ((∃ value, ("Authorization", value) ∈ req.Header) ↔ token ≠ "") ∧
      (getConfigServerProperties w params).2 =
        (match w.clientDo req with
         | .error err => .error err
         | .ok body =>
           match (parseBody w body).2 with
           | .error err => .error err
           | .ok source => .ok source) := by
  refine ⟨{ Method := "GET", URL := parsed,
            Header := if token = "" then [] else [("Authorization", "Bearer " ++ token)] },
    ?_, rfl, rfl, rfl, ?_, ?_⟩
  · rw [getConfigServerProperties_of_request w params name url token _ hres htok
      (buildRequest_ok w name url token parsed hurl)]
    cases hdo : w.clientDo _ with
    | error err => simp [requestsSent]
    | ok body =>
      have hp := requestsSent_parseBody w body
      rcases hpb : parseBody w body with ⟨logs, err | source⟩ <;>
        · rw [hpb] at hp
          simp only [] at hp
          simp only [hpb]
          simp [requestsSent_append, requestsSent, hp]
  · by_cases ht : token = "" <;> simp [ht]
  · rw [getConfigServerProperties_of_request w params name url token _ hres htok
      (buildRequest_ok w name url token parsed hurl)]
    cases hdo : w.clientDo _ with
    | error err => rfl
    | ok body =>
      rcases hpb : parseBody w body with ⟨logs, err | source⟩ <;> simp only [hpb]

/-- C9 in the world of the scenario of §8 with the token `t0k`: one GET to
`http://config-server:8080/svc/default` with the header `Authorization: Bearer t0k`. -/
theorem getConfigServerProperties_request_witness :
    getMicroserviceNameAndURL (worldAnswering "t0k" (envelopeOf scenarioSource)) none
      = .ok ("svc", "http://config-server:8080") ∧
    requestsSent
        (getConfigServerProperties (worldAnswering "t0k" (envelopeOf scenarioSource)) none).1
      = [{ Method := "GET", URL := "http://config-server:8080/svc/default",
           Header := [("Authorization", "Bearer t0k")] }] ∧
    ∃ req : Request,
      requestsSent
          (getConfigServerProperties (worldAnswering "t0k" (envelopeOf scenarioSource)) none).1
        = [req] ∧
      req.Method = "GET" ∧
      req.URL = "http://config-server:8080" ++ "/" ++ "svc" ++ "/default" ∧
      req.Header = (if "t0k" = "" then [] else [("Authorization", "Bearer " ++ "t0k")]) ∧
      ((∃ value, ("Authorization", value) ∈ req.Header) ↔ "t0k" ≠ "") ∧
      (getConfigServerProperties (worldAnswering "t0k" (envelopeOf scenarioSource)) none).2 =
        (match (worldAnswering "t0k" (envelopeOf scenarioSource)).clientDo req with
         | .error err => .error err
         | .ok body =>
           match (parseBody (worldAnswering "t0k" (envelopeOf scenarioSource)) body).2 with
           | .error err => .error err
           | .ok source => .ok source) :=
  ⟨rfl, by decide,
    getConfigServerProperties_request (worldAnswering "t0k" (envelopeOf scenarioSource)) none
      "svc" "http://config-server:8080" "t0k"
      ("http://config-server:8080" ++ "/" ++ "svc" ++ "/default") rfl rfl rfl⟩

/-- C9 as stated fails: the name `svc` followed by a line feed is resolved and the token
provider returns the empty token without error, but `http.NewRequest` rejects the URL, the
loader discards its error and keeps a nil request, and `client.Do` on it is a nil
dereference: no request is handed to `client.Do`. -/
theorem getConfigServerProperties_rejected_url_counterexample :
    getMicroserviceNameAndURL worldWithLineFeed none
      = .ok ("svc\n", "http://config-server:8080") ∧
    worldWithLineFeed.tokenProvider = some (.ok "") ∧
    worldWithLineFeed.parseURL ("http://config-server:8080" ++ "/" ++ "svc\n" ++ "/default")
      = none ∧
    getConfigServerProperties worldWithLineFeed none
      = ([.loadTokenProvider, .getToken,
          .newRequest "GET" "http://config-server:8080/svc\n/default"],
         .panic .nilDereference) ∧
    requestsSent (getConfigServerProperties worldWithLineFeed none).1 = [] :=
  ⟨rfl, rfl, by decide, rfl, rfl⟩

end ConfigServer

namespace RouteRegistration

/-! ## Claims on the gateway resolver and on `defaultRegistrarConfig` -/

/-- C6: the gateway resolver reproduces the mapping table.  For every route, with its route
type set to Public it resolves to the public, private and internal gateways, set to Private
to the private and internal gateways, set to Internal to the internal gateway, and set to
Mesh to exactly the gateway named by the route; it has a mapping exactly for the four route
types; and the sets are nested, Internal within Private within Public. -/
theorem resolve_table (route : Route) (meshType : ServiceMeshType) :
    resolve { route with RouteType := Public } meshType
      = some [PublicGatewayService, PrivateGatewayService, InternalGatewayService] ∧
    resolve { route with RouteType := Private } meshType
      = some [PrivateGatewayService, InternalGatewayService] ∧
    resolve { route with RouteType := Internal } meshType = some [InternalGatewayService] ∧
    resolve { route with RouteType := Mesh } meshType = some [route.Gateway] ∧
    ((resolve route meshType).isSome = true ↔
      route.RouteType ∈ [Public, Private, Internal, Mesh]) ∧
    (resolve { route with RouteType := Internal } meshType).getD []
      ⊆ (resolve { route with RouteType := Private } meshType).getD [] ∧
    (resolve { route with RouteType := Private } meshType).getD []
      ⊆ (resolve { route with RouteType := Public } meshType).getD [] := by
  have hpub : resolve { route with RouteType := Public } meshType
      = some [PublicGatewayService, PrivateGatewayService, InternalGatewayService] := by
    simp [resolve]
  have hpriv : resolve { route with RouteType := Private } meshType
      = some [PrivateGatewayService, InternalGatewayService] := by
    simp [resolve, Private, Public]
  have hint : resolve { route with RouteType := Internal } meshType
      = some [InternalGatewayService] := by
    simp [resolve, Private, Public, Internal]
  have hmesh : resolve { route with RouteType := Mesh } meshType = some [route.Gateway] := by
    simp [resolve, Private, Public, Internal, Mesh]
  refine ⟨hpub, hpriv, hint, hmesh, ?_, ?_, ?_⟩
  · unfold resolve
    by_cases h1 : route.RouteType = Public
    · rw [if_pos h1]
      exact ⟨fun _ => by rw [h1]; simp, fun _ => rfl⟩
    · rw [if_neg h1]
      by_cases h2 : route.RouteType = Private
      · rw [if_pos h2]
        exact ⟨fun _ => by rw [h2]; simp, fun _ => rfl⟩
      · rw [if_neg h2]
        by_cases h3 : route.RouteType = Internal
        · rw [if_pos h3]
          exact ⟨fun _ => by rw [h3]; simp, fun _ => rfl⟩
        · rw [if_neg h3]
          by_cases h4 : route.RouteType = Mesh
          · rw [if_pos h4]
            exact ⟨fun _ => by rw [h4]; simp, fun _ => rfl⟩
          · rw [if_neg h4]
            constructor
            · intro h; simp at h
            · intro h
              simp only [List.mem_cons, List.mem_singleton, List.not_mem_nil, or_false] at h
              rcases h with h | h | h | h
              · exact absurd h h1
              · exact absurd h h2
              · exact absurd h h3
              · exact absurd h h4
  · rw [hint, hpriv]; simp
  · rw [hpriv, hpub]; simp

/-- C6 on a public route from `/api` to `svc:8080` and on the same route turned into a mesh
route through the gateway `mesh-gw`. -/
theorem resolve_table_witness :
    resolve { From := "/api", To := "svc:8080", Forbidden := false, Timeout := 0,
              RouteType := Public, Gateway := "mesh-gw", VirtualService := "", Hosts := [AnyHost] }
        "CORE"
      = some ["public-gateway-service", "private-gateway-service", "internal-gateway-service"] ∧
    resolve { From := "/api", To := "svc:8080", Forbidden := false, Timeout := 0,
              RouteType := Mesh, Gateway := "mesh-gw", VirtualService := "", Hosts := [AnyHost] }
        "CORE"
      = some ["mesh-gw"] :=
  ⟨(resolve_table { From := "/api", To := "svc:8080", Forbidden := false, Timeout := 0,
                    RouteType := Public, Gateway := "mesh-gw", VirtualService := "",
                    Hosts := [AnyHost] } "CORE").1,
    (resolve_table { From := "/api", To := "svc:8080", Forbidden := false, Timeout := 0,
                     RouteType := Public, Gateway := "mesh-gw", VirtualService := "",
                     Hosts := [AnyHost] } "CORE").2.2.2.1⟩

/-- C10: `defaultRegistrarConfig` compares `SERVICE_MESH_TYPE` case-insensitively.  When the
Istio mesh type name is in upper case, the result is the Istio mesh type for every value of
the variable that upper-cases to the same string as that name, and the core mesh type when
the variable has any other value or is unset. -/
theorem defaultRegistrarConfig_case_insensitive (upper : Char → Char)
    (core istio : ServiceMeshType) (lookupEnv : String → Option String)
    (hupper : ToUpper upper istio = istio) :
    (∀ env, lookupEnv "SERVICE_MESH_TYPE" = some env →
      ToUpper upper env = ToUpper upper istio →
      (defaultRegistrarConfig upper core istio lookupEnv).ServiceMeshType = istio) ∧
    (∀ env, lookupEnv "SERVICE_MESH_TYPE" = some env →
      ToUpper upper env ≠ ToUpper upper istio →
      (defaultRegistrarConfig upper core istio lookupEnv).ServiceMeshType = core) ∧
    (lookupEnv "SERVICE_MESH_TYPE" = none →
      (defaultRegistrarConfig upper core istio lookupEnv).ServiceMeshType = core) := by
  refine ⟨?_, ?_, ?_⟩
  · intro env henv heq
    rw [hupper] at heq
    simp [defaultRegistrarConfig, henv, heq]
  · intro env henv hne
    rw [hupper] at hne
    simp [defaultRegistrarConfig, henv, hne]
  · intro henv
    simp [defaultRegistrarConfig, henv]

/-- C10 with the names `CORE` and `ISTIO` and the ASCII case table: the values `iStIo` and
`istio` select the Istio mesh type; the empty value, the value `linkerd` and an unset
variable select the core mesh type. -/
theorem defaultRegistrarConfig_case_insensitive_witness :
    ToUpper asciiUpper "ISTIO" = "ISTIO" ∧
    (defaultRegistrarConfig asciiUpper "CORE" "ISTIO"
      (fun key => if key = "SERVICE_MESH_TYPE" then some "iStIo" else none)).ServiceMeshType
      = "ISTIO" ∧
    (defaultRegistrarConfig asciiUpper "CORE" "ISTIO"
      (fun key => if key = "SERVICE_MESH_TYPE" then some "linkerd" else none)).ServiceMeshType
      = "CORE" ∧
    (defaultRegistrarConfig asciiUpper "CORE" "ISTIO"
      (fun key => if key = "SERVICE_MESH_TYPE" then some "" else none)).ServiceMeshType
      = "CORE" ∧
    (defaultRegistrarConfig asciiUpper "CORE" "ISTIO" (fun _ => none)).ServiceMeshType
      = "CORE" :=
  ⟨by decide,
    (defaultRegistrarConfig_case_insensitive asciiUpper "CORE" "ISTIO"
      (fun key => if key = "SERVICE_MESH_TYPE" then some "iStIo" else none) (by decide)).1
      "iStIo" (by decide) (by decide),
    (defaultRegistrarConfig_case_insensitive asciiUpper "CORE" "ISTIO"
      (fun key => if key = "SERVICE_MESH_TYPE" then some "linkerd" else none) (by decide)).2.1
      "linkerd" (by decide) (by decide),
    (defaultRegistrarConfig_case_insensitive asciiUpper "CORE" "ISTIO"
      (fun key => if key = "SERVICE_MESH_TYPE" then some "" else none) (by decide)).2.1
      "" (by decide) (by decide),
    (defaultRegistrarConfig_case_insensitive asciiUpper "CORE" "ISTIO"
      (fun _ => none) (by decide)).2.2 rfl⟩

end RouteRegistration
